import Mathlib

/-!
Shallow embedding of the query-authorization core of `mcp-server-mysql`
(`src/db/utils.ts`): identifier normalization, structural table-reference
extraction from a parsed SQL syntax tree, the denylist policy engine
`isQueryBlockedByDenylist`, and statement-type classification
`getQueryTypes`.  The external SQL parser (`node-sql-parser`'s
`parser.astify`) is modelled as an abstract parameter producing either a
parse error or a JSON-like syntax-tree value.
-/

namespace McpMysql

mutual

/-- JSON-like values, modelling the untyped AST nodes produced by
`node-sql-parser` as traversed by `getReferencedTablesFromAst`.
`JSList` and `JSFields` are explicit mutual list types so that the
traversal is plain structural recursion. -/
inductive JSValue where
  | null : JSValue
  | bool (b : Bool) : JSValue
  | num (n : Int) : JSValue
  | str (s : String) : JSValue
  | arr (items : JSList) : JSValue
  | obj (fields : JSFields) : JSValue

inductive JSList where
  | nil : JSList
  | cons (hd : JSValue) (tl : JSList) : JSList

inductive JSFields where
  | nil : JSFields
  | cons (key : String) (value : JSValue) (tl : JSFields) : JSFields

end

/-- First binding of a key in an object, modelling JS property access
`node["k"]` (JS object keys are unique, so first binding is the binding). -/
def JSFields.lookup : JSFields → String → Option JSValue
  | .nil, _ => none
  | .cons k v tl, key => if k = key then some v else tl.lookup key

/-- JS truthiness of an optional string: `undefined`/`null` and `""` are
falsy; a non-empty string is truthy.  Returns the string when truthy,
`none` when falsy — this models the JS idioms `if (x)` and `x || y`. -/
def jsStr? : Option String → Option String
  | none => none
  | some s => if s = "" then none else some s

/-- The character-list form of `String(part).replace(/`+"`"+`/g, "").trim().toLowerCase()`:
remove every backtick, trim leading/trailing whitespace, lower-case. -/
def normChars (l : List Char) : List Char :=
  ((((l.filter (fun c => c ≠ '`')).dropWhile Char.isWhitespace).reverse.dropWhile
      Char.isWhitespace).reverse).map Char.toLower

/-- `normalizeIdent` (src/db/utils.ts:9-12): `undefined`, `null` and the
empty string map to `undefined`; otherwise strip backticks, trim and
lower-case. -/
def normalizeIdent : Option String → Option String
  | none => none
  | some s => if s = "" then none else some ⟨normChars s.data⟩

/-- `ReferencedTable` (src/db/utils.ts:14): `{ schema?: string; table: string }`. -/
structure ReferencedTable where
  schema : Option String
  table : String
deriving DecidableEq, Repr

/-- `DenylistedTable` (imported from the config module): an optionally
schema-qualified table name. -/
structure DenylistedTable where
  schema : Option String
  table : String
deriving DecidableEq, Repr

/-- The reference recorded at one AST object node (src/db/utils.ts:41-51):
if the node's `table` field is a string whose normalization is truthy,
record it together with the normalization of a string `db` sibling field. -/
def tableRefAt (fs : JSFields) : List ReferencedTable :=
  match fs.lookup "table" with
  | some (.str s) =>
    match jsStr? (normalizeIdent (some s)) with
    | some tv =>
      let schema :=
        match fs.lookup "db" with
        | some (.str d) => normalizeIdent (some d)
        | _ => none
      [⟨schema, tv⟩]
    | none => []
  | _ => []

mutual

/-- The recursive `visit` of `getReferencedTablesFromAst`
(src/db/utils.ts:30-58), collecting references in traversal order:
at an object node, first the node's own table reference (if any), then
the field values in order; at an array, the elements in order; other
values contribute nothing.  `visitL` and `visitF` are its restrictions
to array elements and object field values. -/
def visitV : JSValue → List ReferencedTable
  | .null => []
  | .bool _ => []
  | .num _ => []
  | .str _ => []
  | .arr l => visitL l
  | .obj fs => tableRefAt fs ++ visitF fs

def visitL : JSList → List ReferencedTable
  | .nil => []
  | .cons v tl => visitV v ++ visitL tl

def visitF : JSFields → List ReferencedTable
  | .nil => []
  | .cons _ v tl => visitV v ++ visitF tl

end

/-- The de-duplication key `` `${t.schema || ""}.${t.table}` ``
(src/db/utils.ts:64): a falsy schema (absent or empty) renders as `""`. -/
def dedupKey (t : ReferencedTable) : String :=
  (match jsStr? t.schema with | some s => s | none => "") ++ "." ++ t.table

/-- The `seen`-set filter of src/db/utils.ts:62-68: keep the first
occurrence of each de-duplication key. -/
def dedupRefs : List ReferencedTable → List String → List ReferencedTable
  | [], _ => []
  | t :: ts, seen =>
    if dedupKey t ∈ seen then dedupRefs ts seen
    else t :: dedupRefs ts (dedupKey t :: seen)

/-- `getReferencedTablesFromAst` (src/db/utils.ts:27-69): traverse, then
de-duplicate. -/
def getReferencedTablesFromAst (ast : JSValue) : List ReferencedTable :=
  dedupRefs (visitV ast) []

/-- The abstract external SQL parser: `parser.astify(sql, { database: "mysql" })`
from `node-sql-parser`, which either throws (modelled as `Except.error` with
the thrown message) or returns an AST or an array of ASTs (one `JSValue`,
an `.arr` in the array case). -/
def Astify : Type := String → Except String JSValue

/-- Flatten `JSList` to an ordinary list of values. -/
def JSList.toList : JSList → List JSValue
  | .nil => []
  | .cons v tl => v :: tl.toList

/-- `Array.isArray(astOrArray) ? astOrArray : [astOrArray]`
(src/db/utils.ts:73 and 166): an array parse result is its element list,
any other value is a single statement. -/
def toStatements : JSValue → List JSValue
  | .arr l => l.toList
  | v => [v]

/-- `getReferencedTables` (src/db/utils.ts:71-79): parse, enforce exactly one
top-level statement (throwing otherwise), then extract references from it.
A parser throw propagates. -/
def getReferencedTables (astify : Astify) (sql : String) :
    Except String (List ReferencedTable) :=
  match astify sql with
  | .error e => .error e
  | .ok v =>
    match toStatements v with
    | [s] => .ok (getReferencedTablesFromAst s)
    | _ => .error "Only single-statement SQL is allowed"

/-- Environment-derived module state visible to `src/db/utils.ts`:
`process.env.MYSQL_DB` and the imported `isMultiDbMode` flag.  Supplied to
the embedded functions as an explicit snapshot; `isQueryBlockedByDenylist`
never reads it (its body, like the source, uses only its parameters). -/
structure Env where
  mysqlDb : Option String
  isMultiDbMode : Bool

/-- The policy decision `{ blocked: boolean; reason?: string }`. -/
structure Decision where
  blocked : Bool
  reason : Option String
deriving DecidableEq, Repr

/-- The schema resolution of src/db/utils.ts:107:
`t.schema || normalizeIdent(defaultSchema) || undefined`. -/
def resolveSchema (defaultSchema : Option String) (t : ReferencedTable) :
    Option String :=
  match jsStr? t.schema with
  | some s => some s
  | none => jsStr? (normalizeIdent defaultSchema)

/-- One denylist-entry check of the matching loop (src/db/utils.ts:110-127),
given the resolved schema and normalized table of a reference: a truthy
`deny.schema` requires a truthy equal resolved schema and equal table; a
falsy `deny.schema` requires only an equal table.  Returns the blocking
reason on a match. -/
def checkDeny (schema : Option String) (table : String)
    (deny : DenylistedTable) : Option String :=
  match jsStr? deny.schema with
  | some ds =>
    match jsStr? schema with
    | some s =>
      if ds = s ∧ deny.table = table then
        some ("Access to table '" ++ ds ++ "." ++ deny.table ++
          "' is blocked by MYSQL_TABLE_DENYLIST")
      else none
    | none => none
  | none =>
    if deny.table = table then
      some ("Access to table '" ++ table ++
        "' is blocked by MYSQL_TABLE_DENYLIST")
    else none

/-- The double loop of src/db/utils.ts:106-128: first match wins, iterating
references in order and, within each, denylist entries in order. -/
def firstBlock (defaultSchema : Option String)
    (referenced : List ReferencedTable) (denylist : List DenylistedTable) :
    Option String :=
  referenced.findSome? fun t =>
    denylist.findSome? fun deny =>
      checkDeny (resolveSchema defaultSchema t) t.table deny

/-- The fixed reason of the multi-DB fail-closed rule (src/db/utils.ts:100-102). -/
def multiDbReason : String :=
  "Unqualified table references are not allowed in multi-DB mode when MYSQL_TABLE_DENYLIST is set. Use fully-qualified schema.table names."

/-- `isQueryBlockedByDenylist` (src/db/utils.ts:81-131).  The `env`
parameter is the module's ambient environment snapshot; the body never
consults it, mirroring the source.  A parser throw from
`getReferencedTables` propagates as `Except.error`. -/
def isQueryBlockedByDenylist (astify : Astify) (_env : Env) (sql : String)
    (denylist : List DenylistedTable) (defaultSchema : Option String)
    (multiDbMode : Bool) : Except String Decision :=
  if denylist.isEmpty then .ok ⟨false, none⟩
  else
    match getReferencedTables astify sql with
    | .error e => .error e
    | .ok referenced =>
      if referenced.isEmpty then .ok ⟨false, none⟩
      else if multiDbMode && referenced.any (fun t => jsStr? t.schema = none) then
        .ok ⟨true, some multiDbReason⟩
      else
        match firstBlock defaultSchema referenced denylist with
        | some r => .ok ⟨true, some r⟩
        | none => .ok ⟨false, none⟩

/-- Lower-casing of a whole string, as in `stmt.type?.toLowerCase()`. -/
def lowerStr (s : String) : String := ⟨s.data.map Char.toLower⟩

/-- `stmt.type?.toLowerCase() ?? "unknown"` (src/db/utils.ts:174): the
lower-cased string `type` field of a statement node, else `"unknown"`. -/
def stmtType (stmt : JSValue) : String :=
  match stmt with
  | .obj fs =>
    match fs.lookup "type" with
    | some (.str s) => lowerStr s
    | _ => "unknown"
  | _ => "unknown"

/-- `getQueryTypes` (src/db/utils.ts:161-180): parse, enforce exactly one
top-level statement, and map statements to their lower-cased types.  The
surrounding `try`/`catch` rethrows any failure (parser throw or the
multi-statement throw) with a `Parsing failed: ` prefix. -/
def getQueryTypes (astify : Astify) (query : String) :
    Except String (List String) :=
  match astify query with
  | .error e => .error ("Parsing failed: " ++ e)
  | .ok v =>
    let statements := toStatements v
    if statements.length ≠ 1 then
      .error "Parsing failed: Only single-statement SQL is allowed"
    else .ok (statements.map stmtType)

/-- Per-operation allow flags of the configuration snapshot
(`ALLOW_INSERT_OPERATION`, `ALLOW_UPDATE_OPERATION`,
`ALLOW_DELETE_OPERATION`, `ALLOW_DDL_OPERATION`). -/
structure WriteFlags where
  allowInsert : Bool
  allowUpdate : Bool
  allowDelete : Bool
  allowDdl : Bool
deriving DecidableEq, Repr

/-- Observable operations performed on a leased connection by the
executor. -/
inductive ConnAction where
  | setReadOnly
  | beginTxn
  | runSql
  | rollback
  | setReadWrite
  | release
deriving DecidableEq, Repr

/-- Modelled from the spec: the DDL statement kinds gated by the
`ALLOW_DDL_OPERATION` flag (spec §4.4 names `create` among the classifier
outputs; §4.5 gates `ddl` as one category).  The classifier source
(`src/db/index.ts`) is not part of the provided sources. -/
def isDdlType (t : String) : Bool :=
  t = "create" || t = "alter" || t = "drop" || t = "truncate"

/-- An executor result: whether it is an error result, plus the sequence
of connection actions performed. -/
structure ExecOutcome where
  isError : Bool
  actions : List ConnAction
deriving DecidableEq, Repr

/-- Modelled from the spec: `executeReadOnlyQuery` (`src/db/index.ts`, not
among the provided sources; behaviour per spec §4.5 read-only mode and the
unit tests): classify the statement with `getQueryTypes`; if it is
insert/update/delete/ddl and the corresponding allow flag is disabled,
return a blocked error result without touching the connection (in
particular without beginning a transaction); otherwise set the session
read-only, begin a transaction, run the statement, always roll back,
restore read-write, release.  A classification failure is likewise an
error result performing no connection action. -/
def executeReadOnlyQuery (astify : Astify) (flags : WriteFlags)
    (sql : String) : ExecOutcome :=
  match getQueryTypes astify sql with
  | .error _ => ⟨true, []⟩
  | .ok types =>
    if types.any (· = "insert") && !flags.allowInsert then ⟨true, []⟩
    else if types.any (· = "update") && !flags.allowUpdate then ⟨true, []⟩
    else if types.any (· = "delete") && !flags.allowDelete then ⟨true, []⟩
    else if types.any isDdlType && !flags.allowDdl then ⟨true, []⟩
    else
      ⟨false, [.setReadOnly, .beginTxn, .runSql, .rollback, .setReadWrite,
        .release]⟩

/-! ### Supporting relations used by the theorems -/

/-- Every string found in the normalized references is fully normalized:
no backtick, no upper-case latin letter, and no leading or trailing
whitespace. -/
def NormalizedStr (s : String) : Prop :=
  (∀ c ∈ s.data, c ≠ '`' ∧ c.isUpper = false) ∧
  (∀ c ∈ s.data.head?, c.isWhitespace = false) ∧
  (∀ c ∈ s.data.getLast?, c.isWhitespace = false)

/-- A reference is normalized: its table is a non-empty normalized string
and its schema, when present, is a normalized string. -/
def RefNormalized (r : ReferencedTable) : Prop :=
  NormalizedStr r.table ∧ r.table ≠ "" ∧ ∀ sc, r.schema = some sc → NormalizedStr sc

/-- The field values of an object node, in order. -/
def JSFields.values : JSFields → List JSValue
  | .nil => []
  | .cons _ v tl => v :: tl.values

/-- `Subnode n v`: the node `n` occurs somewhere inside the value `v`
(at any depth, through arrays and object field values), exactly the nodes
reached by the recursive `visit` of `getReferencedTablesFromAst`. -/
inductive Subnode : JSValue → JSValue → Prop where
  | refl (v : JSValue) : Subnode v v
  | arrMem {n e : JSValue} {l : JSList} :
      Subnode n e → e ∈ l.toList → Subnode n (.arr l)
  | fieldMem {n e : JSValue} {fs : JSFields} :
      Subnode n e → e ∈ fs.values → Subnode n (.obj fs)

mutual

/-- Identifier-equivalence of AST values: same shape and same field keys,
with string leaves allowed to differ only when `normalizeIdent` maps them
to the same normalized identifier (same letters up to case, quoting and
surrounding whitespace). -/
def identEquivV : JSValue → JSValue → Bool
  | .null, .null => true
  | .bool a, .bool b => a = b
  | .num a, .num b => decide (a = b)
  | .str a, .str b => decide (normalizeIdent (some a) = normalizeIdent (some b))
  | .arr l₁, .arr l₂ => identEquivL l₁ l₂
  | .obj f₁, .obj f₂ => identEquivF f₁ f₂
  | _, _ => false

def identEquivL : JSList → JSList → Bool
  | .nil, .nil => true
  | .cons v₁ t₁, .cons v₂ t₂ => identEquivV v₁ v₂ && identEquivL t₁ t₂
  | _, _ => false

def identEquivF : JSFields → JSFields → Bool
  | .nil, .nil => true
  | .cons k₁ v₁ t₁, .cons k₂ v₂ t₂ =>
    decide (k₁ = k₂) && identEquivV v₁ v₂ && identEquivF t₁ t₂
  | _, _ => false

end

/-! ### Character-level facts about the normalization -/

theorem char_toNat_ofNat {n : Nat} (h : n < 55296) : (Char.ofNat n).toNat = n := by
  have hv : n.isValidChar := Or.inl h
  simp [Char.ofNat, hv, Char.ofNatAux, Char.toNat, UInt32.toNat, BitVec.toNat_ofNatLt]

theorem char_eq_iff_toNat {a b : Char} : a = b ↔ a.toNat = b.toNat := by
  constructor
  · rintro rfl; rfl
  · intro h
    exact Char.eq_of_val_eq (UInt32.eq_of_toBitVec_eq (BitVec.eq_of_toNat_eq h))

theorem char_isUpper_iff (c : Char) : c.isUpper = true ↔ 65 ≤ c.toNat ∧ c.toNat ≤ 90 := by
  simp only [Char.isUpper, Bool.and_eq_true, decide_eq_true_eq, ge_iff_le,
    UInt32.le_def, BitVec.le_def]
  exact Iff.rfl

theorem char_isWhitespace_iff (c : Char) :
    c.isWhitespace = true ↔ c.toNat = 32 ∨ c.toNat = 9 ∨ c.toNat = 13 ∨ c.toNat = 10 := by
  simp only [Char.isWhitespace, Bool.or_eq_true, decide_eq_true_eq]
  rw [char_eq_iff_toNat, char_eq_iff_toNat, char_eq_iff_toNat, char_eq_iff_toNat]
  rw [show (' ' : Char).toNat = 32 from rfl, show ('\t' : Char).toNat = 9 from rfl,
    show ('\r' : Char).toNat = 13 from rfl, show ('\n' : Char).toNat = 10 from rfl]
  tauto

theorem toLower_toNat (c : Char) :
    (Char.toLower c).toNat = if 65 ≤ c.toNat ∧ c.toNat ≤ 90 then c.toNat + 32 else c.toNat := by
  unfold Char.toLower
  by_cases h : c.toNat ≥ 65 ∧ c.toNat ≤ 90
  · rw [if_pos h, if_pos ⟨h.1, h.2⟩]
    exact char_toNat_ofNat (by omega)
  · rw [if_neg h, if_neg (by omega)]

theorem toLower_isUpper_false (c : Char) : (Char.toLower c).isUpper = false := by
  rw [Bool.eq_false_iff]
  intro hu
  rw [char_isUpper_iff, toLower_toNat] at hu
  by_cases h : 65 ≤ c.toNat ∧ c.toNat ≤ 90
  · rw [if_pos h] at hu; omega
  · rw [if_neg h] at hu; omega

theorem toLower_ne_backtick {c : Char} (h : c ≠ '`') : Char.toLower c ≠ '`' := by
  intro he
  rw [char_eq_iff_toNat, toLower_toNat] at he
  rw [Ne, char_eq_iff_toNat] at h
  have hb : ('`' : Char).toNat = 96 := rfl
  by_cases hc : 65 ≤ c.toNat ∧ c.toNat ≤ 90
  · rw [if_pos hc] at he; omega
  · rw [if_neg hc] at he; exact h he

theorem toLower_isWhitespace (c : Char) :
    (Char.toLower c).isWhitespace = c.isWhitespace := by
  by_cases h : 65 ≤ c.toNat ∧ c.toNat ≤ 90
  · have h1 : (Char.toLower c).isWhitespace = false := by
      rw [Bool.eq_false_iff]
      intro hw
      rw [char_isWhitespace_iff, toLower_toNat, if_pos h] at hw
      omega
    have h2 : c.isWhitespace = false := by
      rw [Bool.eq_false_iff]
      intro hw
      rw [char_isWhitespace_iff] at hw
      omega
    rw [h1, h2]
  · have : Char.toLower c = c := by
      rw [char_eq_iff_toNat, toLower_toNat, if_neg h]
    rw [this]

/-! ### String-level facts about the normalization -/

theorem head?_dropWhile_false {p : Char → Bool} {l : List Char} {c : Char}
    (h : (l.dropWhile p).head? = some c) : p c = false := by
  have hw := List.head?_dropWhile_not p l
  rw [h] at hw
  exact hw

theorem normChars_normalized (l : List Char) : NormalizedStr ⟨normChars l⟩ := by
  unfold NormalizedStr normChars
  set f := l.filter (fun c => c ≠ '`') with hf
  set y := f.dropWhile Char.isWhitespace with hy
  set z := y.reverse.dropWhile Char.isWhitespace with hz
  refine ⟨?_, ?_, ?_⟩
  · intro c hc
    rw [List.mem_map] at hc
    obtain ⟨c₀, hc₀, rfl⟩ := hc
    have hmem : c₀ ∈ f := by
      have h1 : c₀ ∈ z := List.mem_reverse.mp hc₀
      have h2 : c₀ ∈ y.reverse := List.dropWhile_subset _ h1
      exact List.dropWhile_subset _ (List.mem_reverse.mp h2)
    have hne : c₀ ≠ '`' := by
      have := (List.mem_filter.mp hmem).2
      simpa using this
    exact ⟨toLower_ne_backtick hne, toLower_isUpper_false c₀⟩
  · intro c hc
    rw [List.head?_map] at hc
    cases hzr : z.reverse.head? with
    | none => rw [hzr] at hc; simp at hc
    | some c₀ =>
      rw [hzr] at hc
      simp only [Option.map_some', Option.mem_def, Option.some_inj] at hc
      subst hc
      rw [toLower_isWhitespace]
      rw [List.head?_reverse] at hzr
      obtain ⟨t, ht⟩ := List.dropWhile_suffix (l := y.reverse) Char.isWhitespace
      have hy' : y.reverse.getLast? = some c₀ := by
        rw [← ht, List.getLast?_append, hzr]
        rfl
      rw [List.getLast?_reverse] at hy'
      exact head?_dropWhile_false hy'
  · intro c hc
    rw [List.getLast?_map] at hc
    cases hzr : z.reverse.getLast? with
    | none => rw [hzr] at hc; simp at hc
    | some c₀ =>
      rw [hzr] at hc
      simp only [Option.map_some', Option.mem_def, Option.some_inj] at hc
      subst hc
      rw [toLower_isWhitespace]
      rw [List.getLast?_reverse] at hzr
      exact head?_dropWhile_false hzr

theorem normalizeIdent_normalized {o : Option String} {t : String}
    (h : normalizeIdent o = some t) : NormalizedStr t := by
  cases o with
  | none => simp [normalizeIdent] at h
  | some s =>
    have h' : (if s = "" then none else some (⟨normChars s.data⟩ : String)) = some t := h
    by_cases hs : s = ""
    · rw [if_pos hs] at h'; exact absurd h' (by simp)
    · rw [if_neg hs] at h'
      cases h'
      exact normChars_normalized s.data

theorem jsStr?_eq_some {o : Option String} {t : String}
    (h : jsStr? o = some t) : o = some t ∧ t ≠ "" := by
  cases o with
  | none => simp [jsStr?] at h
  | some s =>
    have h' : (if s = "" then none else some s) = some t := h
    by_cases hs : s = ""
    · rw [if_pos hs] at h'; exact absurd h' (by simp)
    · rw [if_neg hs] at h'
      cases h'
      exact ⟨rfl, hs⟩

theorem tableRefAt_normalized {fs : JSFields} :
    ∀ r ∈ tableRefAt fs, RefNormalized r := by
  intro r hr
  unfold tableRefAt at hr
  cases hlk : fs.lookup "table" with
  | none => rw [hlk] at hr; simp at hr
  | some v =>
    rw [hlk] at hr
    cases v with
    | str s =>
      cases hn : jsStr? (normalizeIdent (some s)) with
      | none => simp [hn] at hr
      | some tv =>
        simp only [hn, List.mem_singleton] at hr
        subst hr
        obtain ⟨hni, hne⟩ := jsStr?_eq_some hn
        refine ⟨normalizeIdent_normalized hni, hne, ?_⟩
        intro sc hsc
        simp only at hsc
        cases hdb : fs.lookup "db" with
        | none => rw [hdb] at hsc; exact absurd hsc (by simp)
        | some dv =>
          rw [hdb] at hsc
          cases dv with
          | str d => exact normalizeIdent_normalized hsc
          | null => exact absurd hsc (by simp)
          | bool b => exact absurd hsc (by simp)
          | num n => exact absurd hsc (by simp)
          | arr l2 => exact absurd hsc (by simp)
          | obj f2 => exact absurd hsc (by simp)
    | null => simp at hr
    | bool b => simp at hr
    | num n => simp at hr
    | arr l2 => simp at hr
    | obj f2 => simp at hr

/-! ### Facts about the traversal and the de-duplication -/

mutual

theorem visitV_normalized : ∀ (v : JSValue), ∀ r ∈ visitV v, RefNormalized r
  | .null => by simp [visitV]
  | .bool _ => by simp [visitV]
  | .num _ => by simp [visitV]
  | .str _ => by simp [visitV]
  | .arr l => by
    intro r hr
    exact visitL_normalized l r hr
  | .obj fs => by
    intro r hr
    rw [visitV, List.mem_append] at hr
    cases hr with
    | inl h => exact tableRefAt_normalized r h
    | inr h => exact visitF_normalized fs r h

theorem visitL_normalized : ∀ (l : JSList), ∀ r ∈ visitL l, RefNormalized r
  | .nil => by simp [visitL]
  | .cons v tl => by
    intro r hr
    rw [visitL, List.mem_append] at hr
    cases hr with
    | inl h => exact visitV_normalized v r h
    | inr h => exact visitL_normalized tl r h

theorem visitF_normalized : ∀ (fs : JSFields), ∀ r ∈ visitF fs, RefNormalized r
  | .nil => by simp [visitF]
  | .cons _ v tl => by
    intro r hr
    rw [visitF, List.mem_append] at hr
    cases hr with
    | inl h => exact visitV_normalized v r h
    | inr h => exact visitF_normalized tl r h

end

theorem visitL_mem {e : JSValue} :
    ∀ (l : JSList), e ∈ l.toList → ∀ r ∈ visitV e, r ∈ visitL l
  | .nil => by intro h; simp [JSList.toList] at h
  | .cons hd tl => by
    intro h r hr
    rw [JSList.toList, List.mem_cons] at h
    rw [visitL, List.mem_append]
    cases h with
    | inl h => subst h; exact Or.inl hr
    | inr h => exact Or.inr (visitL_mem tl h r hr)

theorem visitF_mem {e : JSValue} :
    ∀ (fs : JSFields), e ∈ fs.values → ∀ r ∈ visitV e, r ∈ visitF fs
  | .nil => by intro h; simp [JSFields.values] at h
  | .cons k v tl => by
    intro h r hr
    rw [JSFields.values, List.mem_cons] at h
    rw [visitF, List.mem_append]
    cases h with
    | inl h => subst h; exact Or.inl hr
    | inr h => exact Or.inr (visitF_mem tl h r hr)

theorem subnode_visit {n v : JSValue} (h : Subnode n v) :
    ∀ r ∈ visitV n, r ∈ visitV v := by
  induction h with
  | refl => exact fun r hr => hr
  | arrMem _ hmem ih =>
    intro r hr
    rw [visitV]
    exact visitL_mem _ hmem r (ih r hr)
  | fieldMem _ hmem ih =>
    intro r hr
    rw [visitV, List.mem_append]
    exact Or.inr (visitF_mem _ hmem r (ih r hr))

theorem dedupRefs_subset : ∀ (l : List ReferencedTable) (seen : List String),
    dedupRefs l seen ⊆ l := by
  intro l
  induction l with
  | nil => intro seen r hr; simp [dedupRefs] at hr
  | cons t ts ih =>
    intro seen r hr
    rw [dedupRefs] at hr
    by_cases hk : dedupKey t ∈ seen
    · rw [if_pos hk] at hr
      exact List.mem_cons_of_mem t (ih seen hr)
    · rw [if_neg hk] at hr
      rw [List.mem_cons] at hr
      cases hr with
      | inl h => subst h; exact List.mem_cons_self r ts
      | inr h => exact List.mem_cons_of_mem t (ih _ h)

theorem dedupRefs_keys : ∀ (l : List ReferencedTable) (seen : List String),
    (dedupRefs l seen).Pairwise (fun a b => dedupKey a ≠ dedupKey b) ∧
    ∀ r ∈ dedupRefs l seen, dedupKey r ∉ seen := by
  intro l
  induction l with
  | nil => intro seen; simp [dedupRefs]
  | cons t ts ih =>
    intro seen
    rw [dedupRefs]
    by_cases hk : dedupKey t ∈ seen
    · rw [if_pos hk]
      exact ih seen
    · rw [if_neg hk]
      obtain ⟨hpw, hseen⟩ := ih (dedupKey t :: seen)
      refine ⟨List.pairwise_cons.mpr ⟨?_, hpw⟩, ?_⟩
      · intro b hb heq
        exact hseen b hb (heq ▸ List.mem_cons_self _ _)
      · intro r hr
        rw [List.mem_cons] at hr
        cases hr with
        | inl h => subst h; exact hk
        | inr h =>
          intro hmem
          exact hseen r h (List.mem_cons_of_mem _ hmem)

theorem dedupRefs_covered : ∀ (l : List ReferencedTable) (seen : List String)
    (r : ReferencedTable), r ∈ l → dedupKey r ∉ seen →
    ∃ r' ∈ dedupRefs l seen, dedupKey r' = dedupKey r := by
  intro l
  induction l with
  | nil => intro seen r hr; simp at hr
  | cons t ts ih =>
    intro seen r hr hns
    rw [List.mem_cons] at hr
    rw [dedupRefs]
    by_cases hk : dedupKey t ∈ seen
    · rw [if_pos hk]
      cases hr with
      | inl h => subst h; exact absurd hk hns
      | inr h => exact ih seen r h hns
    · rw [if_neg hk]
      cases hr with
      | inl h =>
        subst h
        exact ⟨r, List.mem_cons_self _ _, rfl⟩
      | inr h =>
        by_cases hkey : dedupKey r = dedupKey t
        · exact ⟨t, List.mem_cons_self _ _, hkey.symm⟩
        · have : dedupKey r ∉ dedupKey t :: seen := by
            rw [List.mem_cons]
            rintro (h1 | h2)
            · exact hkey h1
            · exact hns h2
          obtain ⟨r', hr', hkeq⟩ := ih _ r h this
          exact ⟨r', List.mem_cons_of_mem _ hr', hkeq⟩

/-! ### Facts about the policy engine -/

theorem isQueryBlockedByDenylist_eq (astify : Astify) (env : Env) (sql : String)
    (dl : List DenylistedTable) (ds : Option String) (m : Bool)
    (refs : List ReferencedTable) (hdl : dl ≠ [])
    (href : getReferencedTables astify sql = .ok refs) :
    isQueryBlockedByDenylist astify env sql dl ds m =
      (if refs.isEmpty then .ok ⟨false, none⟩
       else if m && refs.any (fun t => jsStr? t.schema = none) then
         .ok ⟨true, some multiDbReason⟩
       else
         match firstBlock ds refs dl with
         | some r => .ok ⟨true, some r⟩
         | none => .ok ⟨false, none⟩) := by
  unfold isQueryBlockedByDenylist
  rw [if_neg (by simpa [List.isEmpty_iff] using hdl), href]

theorem firstBlock_isSome_iff (ds : Option String) (refs : List ReferencedTable)
    (dl : List DenylistedTable) :
    (firstBlock ds refs dl).isSome = true ↔
      ∃ t ∈ refs, ∃ d ∈ dl, (checkDeny (resolveSchema ds t) t.table d).isSome = true := by
  unfold firstBlock
  simp [List.findSome?_isSome_iff]

theorem getQueryTypes_singleton {astify : Astify} {q : String}
    {types : List String} (h : getQueryTypes astify q = .ok types) :
    ∃ t, types = [t] := by
  unfold getQueryTypes at h
  cases hast : astify q with
  | error e => rw [hast] at h; exact absurd h (by simp)
  | ok v =>
    rw [hast] at h
    simp only at h
    by_cases hl : (toStatements v).length ≠ 1
    · rw [if_pos hl] at h; exact absurd h (by simp)
    · rw [if_neg hl] at h
      rw [not_not] at hl
      obtain ⟨s, hs⟩ := List.length_eq_one.mp hl
      rw [hs] at h
      cases h
      exact ⟨stmtType s, rfl⟩

theorem checkDeny_eq_some {schema : Option String} {table : String}
    {deny : DenylistedTable} {r : String}
    (h : checkDeny schema table deny = some r) :
    (∃ s, jsStr? deny.schema = some s ∧ jsStr? schema = some s ∧
      deny.table = table ∧
      r = "Access to table '" ++ s ++ "." ++ deny.table ++
        "' is blocked by MYSQL_TABLE_DENYLIST") ∨
    (jsStr? deny.schema = none ∧ deny.table = table ∧
      r = "Access to table '" ++ table ++
        "' is blocked by MYSQL_TABLE_DENYLIST") := by
  unfold checkDeny at h
  split at h
  next s hds =>
    split at h
    next s' hsch =>
      split at h
      next hc =>
        obtain ⟨hc1, hc2⟩ := hc
        subst hc1
        refine Or.inl ⟨s, hds, hsch, hc2, ?_⟩
        cases h
        rfl
      next hc => exact absurd h (by simp)
    next hsch => exact absurd h (by simp)
  next hds =>
    split at h
    next hc =>
      refine Or.inr ⟨hds, hc, ?_⟩
      cases h
      rfl
    next hc => exact absurd h (by simp)

/-! ### Identifier-equivalent syntax trees produce identical references -/

theorem identEquivV_shape {v₁ v₂ : JSValue} (h : identEquivV v₁ v₂ = true) :
    (∃ s₁ s₂, v₁ = .str s₁ ∧ v₂ = .str s₂ ∧
      normalizeIdent (some s₁) = normalizeIdent (some s₂)) ∨
    ((∀ s, v₁ ≠ .str s) ∧ (∀ s, v₂ ≠ .str s)) := by
  cases v₁ <;> cases v₂ <;> simp_all [identEquivV]

theorem identEquivF_lookup : ∀ (f₁ f₂ : JSFields),
    identEquivF f₁ f₂ = true → ∀ key,
    (f₁.lookup key = none ∧ f₂.lookup key = none) ∨
    (∃ v₁ v₂, f₁.lookup key = some v₁ ∧ f₂.lookup key = some v₂ ∧
      identEquivV v₁ v₂ = true)
  | .nil, .nil => fun _ _ => Or.inl ⟨rfl, rfl⟩
  | .nil, .cons _ _ _ => by intro h; simp [identEquivF] at h
  | .cons _ _ _, .nil => by intro h; simp [identEquivF] at h
  | .cons k₁ v₁ t₁, .cons k₂ v₂ t₂ => by
    intro h key
    simp only [identEquivF, Bool.and_eq_true, decide_eq_true_eq] at h
    obtain ⟨⟨hk, hv⟩, ht⟩ := h
    subst hk
    rw [JSFields.lookup, JSFields.lookup]
    by_cases hkey : k₁ = key
    · rw [if_pos hkey, if_pos hkey]
      exact Or.inr ⟨v₁, v₂, rfl, rfl, hv⟩
    · rw [if_neg hkey, if_neg hkey]
      exact identEquivF_lookup t₁ t₂ ht key

theorem tableRefAt_equiv {f₁ f₂ : JSFields} (h : identEquivF f₁ f₂ = true) :
    tableRefAt f₁ = tableRefAt f₂ := by
  unfold tableRefAt
  rcases identEquivF_lookup f₁ f₂ h "table" with ⟨h1, h2⟩ | ⟨v₁, v₂, h1, h2, hv⟩
  · rw [h1, h2]
  · rw [h1, h2]
    rcases identEquivV_shape hv with ⟨s₁, s₂, rfl, rfl, hn⟩ | ⟨hn₁, hn₂⟩
    · dsimp only
      rw [hn]
      cases jsStr? (normalizeIdent (some s₂)) with
      | none => rfl
      | some tv =>
        rcases identEquivF_lookup f₁ f₂ h "db" with ⟨hd1, hd2⟩ | ⟨d₁, d₂, hd1, hd2, hvd⟩
        · rw [hd1, hd2]
        · rw [hd1, hd2]
          rcases identEquivV_shape hvd with ⟨e₁, e₂, rfl, rfl, hnd⟩ | ⟨hm₁, hm₂⟩
          · dsimp only
            rw [hnd]
          · cases d₁ with
            | str s => exact absurd rfl (hm₁ s)
            | null => cases d₂ with
              | str s => exact absurd rfl (hm₂ s)
              | null => rfl
              | bool _ => rfl
              | num _ => rfl
              | arr _ => rfl
              | obj _ => rfl
            | bool _ => cases d₂ with
              | str s => exact absurd rfl (hm₂ s)
              | null => rfl
              | bool _ => rfl
              | num _ => rfl
              | arr _ => rfl
              | obj _ => rfl
            | num _ => cases d₂ with
              | str s => exact absurd rfl (hm₂ s)
              | null => rfl
              | bool _ => rfl
              | num _ => rfl
              | arr _ => rfl
              | obj _ => rfl
            | arr _ => cases d₂ with
              | str s => exact absurd rfl (hm₂ s)
              | null => rfl
              | bool _ => rfl
              | num _ => rfl
              | arr _ => rfl
              | obj _ => rfl
            | obj _ => cases d₂ with
              | str s => exact absurd rfl (hm₂ s)
              | null => rfl
              | bool _ => rfl
              | num _ => rfl
              | arr _ => rfl
              | obj _ => rfl
    · cases v₁ with
      | str s => exact absurd rfl (hn₁ s)
      | null => cases v₂ with
        | str s => exact absurd rfl (hn₂ s)
        | null => rfl
        | bool _ => rfl
        | num _ => rfl
        | arr _ => rfl
        | obj _ => rfl
      | bool _ => cases v₂ with
        | str s => exact absurd rfl (hn₂ s)
        | null => rfl
        | bool _ => rfl
        | num _ => rfl
        | arr _ => rfl
        | obj _ => rfl
      | num _ => cases v₂ with
        | str s => exact absurd rfl (hn₂ s)
        | null => rfl
        | bool _ => rfl
        | num _ => rfl
        | arr _ => rfl
        | obj _ => rfl
      | arr _ => cases v₂ with
        | str s => exact absurd rfl (hn₂ s)
        | null => rfl
        | bool _ => rfl
        | num _ => rfl
        | arr _ => rfl
        | obj _ => rfl
      | obj _ => cases v₂ with
        | str s => exact absurd rfl (hn₂ s)
        | null => rfl
        | bool _ => rfl
        | num _ => rfl
        | arr _ => rfl
        | obj _ => rfl

mutual

theorem visitV_equiv : ∀ (v₁ v₂ : JSValue), identEquivV v₁ v₂ = true →
    visitV v₁ = visitV v₂
  | .null, v₂ => by cases v₂ <;> intro h <;> simp_all [identEquivV, visitV]
  | .bool _, v₂ => by cases v₂ <;> intro h <;> simp_all [identEquivV, visitV]
  | .num _, v₂ => by cases v₂ <;> intro h <;> simp_all [identEquivV, visitV]
  | .str _, v₂ => by cases v₂ <;> intro h <;> simp_all [identEquivV, visitV]
  | .arr l₁, v₂ => by
    cases v₂ with
    | arr l₂ =>
      intro h
      rw [visitV, visitV]
      exact visitL_equiv l₁ l₂ (by simpa [identEquivV] using h)
    | null => intro h; simp [identEquivV] at h
    | bool _ => intro h; simp [identEquivV] at h
    | num _ => intro h; simp [identEquivV] at h
    | str _ => intro h; simp [identEquivV] at h
    | obj _ => intro h; simp [identEquivV] at h
  | .obj f₁, v₂ => by
    cases v₂ with
    | obj f₂ =>
      intro h
      rw [visitV, visitV, tableRefAt_equiv (by simpa [identEquivV] using h),
        visitF_equiv f₁ f₂ (by simpa [identEquivV] using h)]
    | null => intro h; simp [identEquivV] at h
    | bool _ => intro h; simp [identEquivV] at h
    | num _ => intro h; simp [identEquivV] at h
    | str _ => intro h; simp [identEquivV] at h
    | arr _ => intro h; simp [identEquivV] at h

theorem visitL_equiv : ∀ (l₁ l₂ : JSList), identEquivL l₁ l₂ = true →
    visitL l₁ = visitL l₂
  | .nil, .nil => fun _ => rfl
  | .nil, .cons _ _ => by intro h; simp [identEquivL] at h
  | .cons _ _, .nil => by intro h; simp [identEquivL] at h
  | .cons v₁ t₁, .cons v₂ t₂ => by
    intro h
    simp only [identEquivL, Bool.and_eq_true] at h
    rw [visitL, visitL, visitV_equiv v₁ v₂ h.1, visitL_equiv t₁ t₂ h.2]

theorem visitF_equiv : ∀ (f₁ f₂ : JSFields), identEquivF f₁ f₂ = true →
    visitF f₁ = visitF f₂
  | .nil, .nil => fun _ => rfl
  | .nil, .cons _ _ _ => by intro h; simp [identEquivF] at h
  | .cons _ _ _, .nil => by intro h; simp [identEquivF] at h
  | .cons _ v₁ t₁, .cons _ v₂ t₂ => by
    intro h
    simp only [identEquivF, Bool.and_eq_true, decide_eq_true_eq] at h
    rw [visitF, visitF, visitV_equiv v₁ v₂ h.1.2, visitF_equiv t₁ t₂ h.2]

end

theorem getReferencedTablesFromAst_equiv {v₁ v₂ : JSValue}
    (h : identEquivV v₁ v₂ = true) :
    getReferencedTablesFromAst v₁ = getReferencedTablesFromAst v₂ := by
  unfold getReferencedTablesFromAst
  rw [visitV_equiv v₁ v₂ h]

theorem identEquivL_toList : ∀ (l₁ l₂ : JSList), identEquivL l₁ l₂ = true →
    List.Forall₂ (fun a b => identEquivV a b = true) l₁.toList l₂.toList
  | .nil, .nil => by intro _; simp [JSList.toList]
  | .nil, .cons _ _ => by intro h; simp [identEquivL] at h
  | .cons _ _, .nil => by intro h; simp [identEquivL] at h
  | .cons v₁ t₁, .cons v₂ t₂ => by
    intro h
    simp only [identEquivL, Bool.and_eq_true] at h
    exact List.Forall₂.cons h.1 (identEquivL_toList t₁ t₂ h.2)

theorem toStatements_equiv {v₁ v₂ : JSValue} (h : identEquivV v₁ v₂ = true) :
    List.Forall₂ (fun a b => identEquivV a b = true)
      (toStatements v₁) (toStatements v₂) := by
  cases v₁ with
  | arr l₁ =>
    cases v₂ with
    | arr l₂ => exact identEquivL_toList l₁ l₂ (by simpa [identEquivV] using h)
    | null => simp [identEquivV] at h
    | bool _ => simp [identEquivV] at h
    | num _ => simp [identEquivV] at h
    | str _ => simp [identEquivV] at h
    | obj _ => simp [identEquivV] at h
  | null =>
    cases v₂ with
    | null => exact List.Forall₂.cons h List.Forall₂.nil
    | bool _ => simp [identEquivV] at h
    | num _ => simp [identEquivV] at h
    | str _ => simp [identEquivV] at h
    | arr _ => simp [identEquivV] at h
    | obj _ => simp [identEquivV] at h
  | bool b =>
    cases v₂ with
    | bool b₂ =>
      exact List.Forall₂.cons h List.Forall₂.nil
    | null => simp [identEquivV] at h
    | num _ => simp [identEquivV] at h
    | str _ => simp [identEquivV] at h
    | arr _ => simp [identEquivV] at h
    | obj _ => simp [identEquivV] at h
  | num n =>
    cases v₂ with
    | num n₂ =>
      exact List.Forall₂.cons h List.Forall₂.nil
    | null => simp [identEquivV] at h
    | bool _ => simp [identEquivV] at h
    | str _ => simp [identEquivV] at h
    | arr _ => simp [identEquivV] at h
    | obj _ => simp [identEquivV] at h
  | str s =>
    cases v₂ with
    | str s₂ =>
      exact List.Forall₂.cons h List.Forall₂.nil
    | null => simp [identEquivV] at h
    | bool _ => simp [identEquivV] at h
    | num _ => simp [identEquivV] at h
    | arr _ => simp [identEquivV] at h
    | obj _ => simp [identEquivV] at h
  | obj f₁ =>
    cases v₂ with
    | obj f₂ =>
      exact List.Forall₂.cons h List.Forall₂.nil
    | null => simp [identEquivV] at h
    | bool _ => simp [identEquivV] at h
    | num _ => simp [identEquivV] at h
    | str _ => simp [identEquivV] at h
    | arr _ => simp [identEquivV] at h

theorem getReferencedTables_equiv {astify₁ astify₂ : Astify}
    {sql₁ sql₂ : String} {v₁ v₂ : JSValue}
    (h₁ : astify₁ sql₁ = .ok v₁) (h₂ : astify₂ sql₂ = .ok v₂)
    (he : identEquivV v₁ v₂ = true) :
    getReferencedTables astify₁ sql₁ = getReferencedTables astify₂ sql₂ := by
  unfold getReferencedTables
  rw [h₁, h₂]
  dsimp only
  have hf := toStatements_equiv he
  revert hf
  generalize toStatements v₁ = st₁
  generalize toStatements v₂ = st₂
  intro hf
  cases hf with
  | nil => rfl
  | cons hab htl =>
    cases htl with
    | nil =>
      dsimp only
      rw [getReferencedTablesFromAst_equiv hab]
    | cons _ _ => rfl

theorem resolveSchema_falsy {t : ReferencedTable} {ds : Option String}
    (hq : jsStr? t.schema = none) (hds : ds = none ∨ ds = some "") :
    resolveSchema ds t = none := by
  unfold resolveSchema
  rw [hq]
  rcases hds with rfl | rfl <;> rfl

theorem checkDeny_qualified_unresolved {table : String} {d : DenylistedTable}
    (hd : jsStr? d.schema ≠ none) : checkDeny none table d = none := by
  unfold checkDeny
  cases hds : jsStr? d.schema with
  | none => exact absurd hds hd
  | some s => rfl

/-! ## The claims -/

/-- C1: in multi-DB mode with a non-empty denylist, if the parsed statement
references at least one table without an explicit schema, the query is
blocked with a non-empty reason — even when no referenced table matches any
denylist entry (no matching hypothesis appears below). -/
theorem claim1_multiDb_unqualified_blocked (astify : Astify) (env : Env)
    (sql : String) (dl : List DenylistedTable) (ds : Option String)
    (refs : List ReferencedTable) (t : ReferencedTable)
    (hdl : dl ≠ []) (href : getReferencedTables astify sql = .ok refs)
    (ht : t ∈ refs) (hq : t.schema = none) :
    ∃ r, isQueryBlockedByDenylist astify env sql dl ds true = .ok ⟨true, some r⟩ ∧
      r ≠ "" := by
  refine ⟨multiDbReason, ?_, by decide⟩
  rw [isQueryBlockedByDenylist_eq astify env sql dl ds true refs hdl href]
  rw [if_neg (show ¬(refs.isEmpty = true) by
    simp only [List.isEmpty_iff]
    exact List.ne_nil_of_mem ht)]
  rw [if_pos]
  simp only [Bool.true_and, List.any_eq_true, decide_eq_true_eq]
  exact ⟨t, ht, by rw [hq]; rfl⟩

theorem claim1_witness :
    ∃ r, isQueryBlockedByDenylist
      (fun _ => .ok (.obj (.cons "table" (.str "users") .nil)))
      ⟨none, false⟩ "SELECT * FROM users" [⟨some "prod", "users"⟩] none true =
        .ok ⟨true, some r⟩ ∧ r ≠ "" :=
  claim1_multiDb_unqualified_blocked
    (fun _ => .ok (.obj (.cons "table" (.str "users") .nil)))
    ⟨none, false⟩ "SELECT * FROM users" [⟨some "prod", "users"⟩] none
    [⟨none, "users"⟩] ⟨none, "users"⟩ (by simp) rfl
    (List.mem_singleton_self _) rfl

/-- C2: in single-DB mode with a non-empty denylist and a successful parse,
the query is blocked if and only if some referenced table, with its schema
resolved against the default schema by `resolveSchema`, matches some
denylist entry under `checkDeny` (a schema-qualified entry requires an
exact schema-and-table match, a schema-less entry a table match in any
resolved schema); in particular a query none of whose referenced tables
match any entry is never blocked. -/
theorem claim2_single_db_blocked_iff (astify : Astify) (env : Env)
    (sql : String) (dl : List DenylistedTable) (ds : Option String)
    (refs : List ReferencedTable)
    (hdl : dl ≠ []) (href : getReferencedTables astify sql = .ok refs) :
    (∃ r, isQueryBlockedByDenylist astify env sql dl ds false = .ok ⟨true, r⟩) ↔
      ∃ t ∈ refs, ∃ d ∈ dl,
        (checkDeny (resolveSchema ds t) t.table d).isSome = true := by
  rw [isQueryBlockedByDenylist_eq astify env sql dl ds false refs hdl href]
  by_cases hre : refs.isEmpty
  · rw [if_pos hre]
    have hnil : refs = [] := List.isEmpty_iff.mp hre
    subst hnil
    simp
  · rw [if_neg hre, if_neg (by simp)]
    cases hfb : firstBlock ds refs dl with
    | none =>
      constructor
      · rintro ⟨r, hr⟩
        simp at hr
      · intro hex
        have hs : (firstBlock ds refs dl).isSome = true :=
          (firstBlock_isSome_iff ds refs dl).mpr hex
        rw [hfb] at hs
        simp at hs
    | some r =>
      constructor
      · intro _
        have hs : (firstBlock ds refs dl).isSome = true := by rw [hfb]; rfl
        exact (firstBlock_isSome_iff ds refs dl).mp hs
      · intro _
        exact ⟨some r, rfl⟩

theorem claim2_witness :
    (∃ r, isQueryBlockedByDenylist
      (fun _ => .ok (.obj (.cons "table" (.str "orders") .nil)))
      ⟨none, false⟩ "SELECT * FROM orders" [⟨some "prod", "users"⟩]
      (some "prod") false = .ok ⟨true, r⟩) ↔
      ∃ t ∈ [(⟨none, "orders"⟩ : ReferencedTable)],
        ∃ d ∈ [(⟨some "prod", "users"⟩ : DenylistedTable)],
        (checkDeny (resolveSchema (some "prod") t) t.table d).isSome = true :=
  claim2_single_db_blocked_iff
    (fun _ => .ok (.obj (.cons "table" (.str "orders") .nil)))
    ⟨none, false⟩ "SELECT * FROM orders" [⟨some "prod", "users"⟩] (some "prod")
    [⟨none, "orders"⟩] (by simp) rfl

/-- C3: whenever the parser throws, or the parse yields zero or more than
one top-level statement, both `getReferencedTables` and `getQueryTypes`
fail with an error rather than returning a value. -/
theorem claim3_non_single_statement_errors (astify : Astify) (sql : String)
    (h : (∃ e, astify sql = .error e) ∨
      ∃ v, astify sql = .ok v ∧ (toStatements v).length ≠ 1) :
    (∃ e₁, getReferencedTables astify sql = .error e₁) ∧
    (∃ e₂, getQueryTypes astify sql = .error e₂) := by
  rcases h with ⟨e, he⟩ | ⟨v, hv, hl⟩
  · constructor
    · exact ⟨e, by unfold getReferencedTables; rw [he]⟩
    · exact ⟨"Parsing failed: " ++ e, by unfold getQueryTypes; rw [he]⟩
  · constructor
    · refine ⟨"Only single-statement SQL is allowed", ?_⟩
      unfold getReferencedTables
      rw [hv]
      dsimp only
      cases hts : toStatements v with
      | nil => rfl
      | cons s tl =>
        cases tl with
        | nil => exact absurd (by rw [hts]; rfl) hl
        | cons s2 tl2 => rfl
    · refine ⟨"Parsing failed: Only single-statement SQL is allowed", ?_⟩
      unfold getQueryTypes
      rw [hv]
      dsimp only
      rw [if_pos hl]

theorem claim3_witness :
    (∃ e₁, getReferencedTables
      (fun _ => .ok (.arr (.cons (.obj .nil) (.cons (.obj .nil) .nil))))
      "SELECT 1; SELECT 2" = .error e₁) ∧
    (∃ e₂, getQueryTypes
      (fun _ => .ok (.arr (.cons (.obj .nil) (.cons (.obj .nil) .nil))))
      "SELECT 1; SELECT 2" = .error e₂) :=
  claim3_non_single_statement_errors
    (fun _ => .ok (.arr (.cons (.obj .nil) (.cons (.obj .nil) .nil))))
    "SELECT 1; SELECT 2"
    (Or.inr ⟨.arr (.cons (.obj .nil) (.cons (.obj .nil) .nil)), rfl, by decide⟩)

/-- C4, counterexample: the claim that the matching decision is insensitive
to letter case on the denylist-entry side is false.  Two calls identical
except for the letter case of the denylist entry's table name (`users` vs
`Users`) produce different decisions: the lower-case entry blocks, the
mixed-case entry does not, because entries are compared verbatim against
normalized references. -/
theorem claim4_counterexample :
    isQueryBlockedByDenylist
      (fun _ => .ok (.obj (.cons "table" (.str "users") .nil)))
      ⟨none, false⟩ "SELECT * FROM users" [⟨none, "users"⟩] none false =
      .ok ⟨true, some "Access to table 'users' is blocked by MYSQL_TABLE_DENYLIST"⟩ ∧
    isQueryBlockedByDenylist
      (fun _ => .ok (.obj (.cons "table" (.str "users") .nil)))
      ⟨none, false⟩ "SELECT * FROM users" [⟨none, "Users"⟩] none false =
      .ok ⟨false, none⟩ :=
  ⟨rfl, rfl⟩

/-- C4 as amended: matching is case- and quoting-insensitive on the query
side only.  If two parses produce identifier-equivalent syntax trees (equal
up to letter case, backtick quoting and surrounding whitespace in string
leaves, as captured by `identEquivV` via `normalizeIdent`), the decisions
are identical for every denylist; on the denylist-entry side, entries are
compared verbatim, so only entries already in normalized (lower-case,
unquoted) form can match. -/
theorem claim4_amended_query_side_insensitive (astify₁ astify₂ : Astify)
    (env₁ env₂ : Env) (sql₁ sql₂ : String) (dl : List DenylistedTable)
    (ds : Option String) (m : Bool) (v₁ v₂ : JSValue)
    (h₁ : astify₁ sql₁ = .ok v₁) (h₂ : astify₂ sql₂ = .ok v₂)
    (he : identEquivV v₁ v₂ = true) :
    isQueryBlockedByDenylist astify₁ env₁ sql₁ dl ds m =
    isQueryBlockedByDenylist astify₂ env₂ sql₂ dl ds m := by
  unfold isQueryBlockedByDenylist
  rw [getReferencedTables_equiv h₁ h₂ he]

theorem claim4_amended_witness :
    isQueryBlockedByDenylist
      (fun _ => .ok (.obj (.cons "table" (.str "`Users`") .nil)))
      ⟨none, false⟩ "SELECT * FROM `Users`" [⟨none, "users"⟩] none false =
    isQueryBlockedByDenylist
      (fun _ => .ok (.obj (.cons "table" (.str "USERS") .nil)))
      ⟨some "x", true⟩ "SELECT * FROM USERS" [⟨none, "users"⟩] none false :=
  claim4_amended_query_side_insensitive
    (fun _ => .ok (.obj (.cons "table" (.str "`Users`") .nil)))
    (fun _ => .ok (.obj (.cons "table" (.str "USERS") .nil)))
    ⟨none, false⟩ ⟨some "x", true⟩ "SELECT * FROM `Users`" "SELECT * FROM USERS"
    [⟨none, "users"⟩] none false
    (.obj (.cons "table" (.str "`Users`") .nil))
    (.obj (.cons "table" (.str "USERS") .nil)) rfl rfl (by decide)

/-- C5: an empty denylist always yields not-blocked, for any SQL whatsoever
and any parser behaviour (the `astify` quantifier covers parsers that throw
on this very input, so the result cannot depend on any parsing); and
whenever the parsed statement references no tables the result is likewise
not-blocked. -/
theorem claim5_empty_denylist_or_no_refs (astify : Astify) (env : Env)
    (sql : String) (dl : List DenylistedTable) (ds : Option String) (m : Bool) :
    isQueryBlockedByDenylist astify env sql [] ds m = .ok ⟨false, none⟩ ∧
    (getReferencedTables astify sql = .ok [] →
      isQueryBlockedByDenylist astify env sql dl ds m = .ok ⟨false, none⟩) := by
  constructor
  · rfl
  · intro href
    by_cases hdl : dl = []
    · subst hdl; rfl
    · rw [isQueryBlockedByDenylist_eq astify env sql dl ds m [] hdl href]
      rfl

theorem claim5_witness :
    isQueryBlockedByDenylist (fun _ => .error "parse error") ⟨none, false⟩
      "NOT SQL AT ALL" [] none true = .ok ⟨false, none⟩ ∧
    isQueryBlockedByDenylist (fun _ => .ok (.obj .nil)) ⟨none, false⟩
      "SELECT 1" [⟨none, "users"⟩] none true = .ok ⟨false, none⟩ :=
  ⟨(claim5_empty_denylist_or_no_refs (fun _ => .error "parse error")
      ⟨none, false⟩ "NOT SQL AT ALL" [] none true).1,
   (claim5_empty_denylist_or_no_refs (fun _ => .ok (.obj .nil))
      ⟨none, false⟩ "SELECT 1" [⟨none, "users"⟩] none true).2 rfl⟩

/-- C6, counterexample: the claim that every AST node carrying a
string-valued `table` field contributes a reference is false.  A node whose
`table` field is a string that normalizes to the empty identifier (here a
space between backticks) carries a string-valued `table` field yet
contributes nothing: the extraction result is empty. -/
theorem claim6_counterexample :
    JSFields.lookup (.cons "table" (.str "` `") .nil) "table" =
      some (.str "` `") ∧
    getReferencedTablesFromAst (.obj (.cons "table" (.str "` `") .nil)) = [] :=
  ⟨rfl, rfl⟩

/-- C6 as amended: the extraction result contains no two references with
the same `(schema, table)` pair (schema absence distinct from any schema);
every reference is normalized (table, and schema when present, carry no
backtick, no upper-case latin letter, and no leading or trailing
whitespace); and every node, at any depth, whose `table` field is a string
normalizing to a non-empty identifier contributes its reference to the
traversal, the de-duplicated output retaining a reference with the same
de-duplication key (equal table, and equal schema up to the identification
of empty and absent schema made by the key of src/db/utils.ts:64). -/
theorem claim6_amended_extraction_invariants (v : JSValue) :
    ((getReferencedTablesFromAst v).Pairwise
      (fun a b => ¬(a.schema = b.schema ∧ a.table = b.table))) ∧
    (∀ r ∈ getReferencedTablesFromAst v, RefNormalized r) ∧
    (∀ (fs : JSFields) (r₀ : ReferencedTable), Subnode (.obj fs) v →
      tableRefAt fs = [r₀] →
      r₀ ∈ visitV v ∧
      ∃ r ∈ getReferencedTablesFromAst v, dedupKey r = dedupKey r₀) := by
  refine ⟨?_, ?_, ?_⟩
  · refine ((dedupRefs_keys (visitV v) []).1).imp ?_
    intro a b hk hab
    exact hk (by unfold dedupKey; rw [hab.1, hab.2])
  · intro r hr
    exact visitV_normalized v r (dedupRefs_subset _ _ hr)
  · intro fs r₀ hsub htab
    have h1 : r₀ ∈ visitV (.obj fs) := by
      rw [visitV, htab]
      exact List.mem_append_left _ (List.mem_singleton_self r₀)
    have h2 : r₀ ∈ visitV v := subnode_visit hsub r₀ h1
    exact ⟨h2, dedupRefs_covered (visitV v) [] r₀ h2 (by simp)⟩

theorem claim6_amended_witness :
    (tableRefAt (.cons "table" (.str "Users") .nil) =
      [(⟨none, "users"⟩ : ReferencedTable)]) ∧
    ∃ r ∈ getReferencedTablesFromAst (.obj (.cons "table" (.str "Users") .nil)),
      dedupKey r = dedupKey ⟨none, "users"⟩ :=
  ⟨rfl,
    ((claim6_amended_extraction_invariants
      (.obj (.cons "table" (.str "Users") .nil))).2.2
      (.cons "table" (.str "Users") .nil) ⟨none, "users"⟩
      (Subnode.refl _) rfl).2⟩

/-- C7: the decision of `isQueryBlockedByDenylist` is deterministic and
depends only on its four explicit arguments: it is invariant under any
change of the ambient environment snapshot (`process.env.MYSQL_DB` and the
`isMultiDbMode` flag — the only inputs of the regex heuristic
`extractSchemaFromQuery` beyond the SQL text) and under any change of the
parser away from the given SQL string. -/
theorem claim7_depends_only_on_arguments (astify₁ astify₂ : Astify)
    (env₁ env₂ : Env) (sql : String) (dl : List DenylistedTable)
    (ds : Option String) (m : Bool) (h : astify₁ sql = astify₂ sql) :
    isQueryBlockedByDenylist astify₁ env₁ sql dl ds m =
    isQueryBlockedByDenylist astify₂ env₂ sql dl ds m := by
  unfold isQueryBlockedByDenylist getReferencedTables
  rw [h]

theorem claim7_witness :
    isQueryBlockedByDenylist (fun _ => .ok .null) ⟨some "prod", true⟩
      "SELECT 1" [⟨none, "users"⟩] none false =
    isQueryBlockedByDenylist (fun _ => .ok .null) ⟨none, false⟩
      "SELECT 1" [⟨none, "users"⟩] none false :=
  claim7_depends_only_on_arguments (fun _ => .ok .null) (fun _ => .ok .null)
    ⟨some "prod", true⟩ ⟨none, false⟩ "SELECT 1" [⟨none, "users"⟩] none false rfl

/-- C8, counterexample: the claim that a denylist-match reason is
schema-qualified whenever the table's schema is known is false.  The
reference's schema is known (it resolves to `prod` from the default
schema), the query is blocked by a schema-less entry, and the reason names
the table unqualified, not as `prod.users`. -/
theorem claim8_counterexample :
    isQueryBlockedByDenylist
      (fun _ => .ok (.obj (.cons "table" (.str "users") .nil)))
      ⟨none, false⟩ "SELECT * FROM users" [⟨none, "users"⟩] (some "prod")
      false =
      .ok ⟨true, some "Access to table 'users' is blocked by MYSQL_TABLE_DENYLIST"⟩ ∧
    resolveSchema (some "prod") ⟨none, "users"⟩ = some "prod" ∧
    ("Access to table 'users' is blocked by MYSQL_TABLE_DENYLIST" : String) ≠
      "Access to table 'prod.users' is blocked by MYSQL_TABLE_DENYLIST" :=
  ⟨rfl, rfl, by decide⟩

/-- C8 as amended: whenever the query is blocked by a denylist match (not
by the multi-DB rule), the reason names the blocked table: it is the
schema-qualified `schema.table` exactly when the matching denylist entry is
schema-qualified (in which case the entry's schema equals the resolved
schema), and the bare table name when the matching entry is schema-less —
even if the table's schema is known. -/
theorem claim8_amended_reason_names_table (astify : Astify) (env : Env)
    (sql : String) (dl : List DenylistedTable) (ds : Option String) (m : Bool)
    (refs : List ReferencedTable) (r : String)
    (href : getReferencedTables astify sql = .ok refs)
    (hres : isQueryBlockedByDenylist astify env sql dl ds m =
      .ok ⟨true, some r⟩)
    (hnm : r ≠ multiDbReason) :
    ∃ t ∈ refs, ∃ d ∈ dl, checkDeny (resolveSchema ds t) t.table d = some r ∧
      ((∃ s, jsStr? d.schema = some s ∧
        jsStr? (resolveSchema ds t) = some s ∧ d.table = t.table ∧
        r = "Access to table '" ++ s ++ "." ++ d.table ++
          "' is blocked by MYSQL_TABLE_DENYLIST") ∨
       (jsStr? d.schema = none ∧ d.table = t.table ∧
        r = "Access to table '" ++ t.table ++
          "' is blocked by MYSQL_TABLE_DENYLIST")) := by
  by_cases hdl : dl = []
  · subst hdl
    have hcontra : (Except.ok ⟨false, none⟩ : Except String Decision) =
        .ok ⟨true, some r⟩ := hres
    simp at hcontra
  · rw [isQueryBlockedByDenylist_eq astify env sql dl ds m refs hdl href]
      at hres
    by_cases hre : refs.isEmpty
    · rw [if_pos hre] at hres
      simp at hres
    · rw [if_neg hre] at hres
      by_cases hmd : (m && refs.any (fun t => jsStr? t.schema = none)) = true
      · rw [if_pos hmd] at hres
        simp only [Except.ok.injEq, Decision.mk.injEq, Option.some_inj] at hres
        exact absurd hres.2.symm hnm
      · rw [if_neg hmd] at hres
        cases hfb : firstBlock ds refs dl with
        | none => rw [hfb] at hres; simp at hres
        | some r' =>
          rw [hfb] at hres
          have hr : r' = r := by simpa using hres
          subst hr
          unfold firstBlock at hfb
          obtain ⟨t, ht, hinner⟩ := List.exists_of_findSome?_eq_some hfb
          obtain ⟨d, hd, hcd⟩ := List.exists_of_findSome?_eq_some hinner
          exact ⟨t, ht, d, hd, hcd, checkDeny_eq_some hcd⟩

theorem claim8_amended_witness :
    ∃ t ∈ [(⟨none, "users"⟩ : ReferencedTable)],
      ∃ d ∈ [(⟨none, "users"⟩ : DenylistedTable)],
      checkDeny (resolveSchema (some "prod") t) t.table d =
        some "Access to table 'users' is blocked by MYSQL_TABLE_DENYLIST" ∧
      ((∃ s, jsStr? d.schema = some s ∧
        jsStr? (resolveSchema (some "prod") t) = some s ∧ d.table = t.table ∧
        "Access to table 'users' is blocked by MYSQL_TABLE_DENYLIST" =
          "Access to table '" ++ s ++ "." ++ d.table ++
            "' is blocked by MYSQL_TABLE_DENYLIST") ∨
       (jsStr? d.schema = none ∧ d.table = t.table ∧
        "Access to table 'users' is blocked by MYSQL_TABLE_DENYLIST" =
          "Access to table '" ++ t.table ++
            "' is blocked by MYSQL_TABLE_DENYLIST")) :=
  claim8_amended_reason_names_table
    (fun _ => .ok (.obj (.cons "table" (.str "users") .nil)))
    ⟨none, false⟩ "SELECT * FROM users" [⟨none, "users"⟩] (some "prod") false
    [⟨none, "users"⟩]
    "Access to table 'users' is blocked by MYSQL_TABLE_DENYLIST"
    rfl rfl (by decide)

/-- C9: in read-only execution mode, a statement classified as insert,
update, delete, or DDL whose corresponding allow flag is disabled yields a
blocked error result and performs no connection action at all — in
particular, no transaction is begun.  The executor `executeReadOnlyQuery`
is modelled from the spec (its source, `src/db/index.ts`, is not among the
provided files); classification uses the embedded `getQueryTypes`. -/
theorem claim9_readonly_blocks_without_txn (astify : Astify)
    (flags : WriteFlags) (sql : String) (types : List String) (t : String)
    (htypes : getQueryTypes astify sql = .ok types) (ht : t ∈ types)
    (hblk : (t = "insert" ∧ flags.allowInsert = false) ∨
            (t = "update" ∧ flags.allowUpdate = false) ∨
            (t = "delete" ∧ flags.allowDelete = false) ∨
            (isDdlType t = true ∧ flags.allowDdl = false)) :
    (executeReadOnlyQuery astify flags sql).isError = true ∧
    ConnAction.beginTxn ∉ (executeReadOnlyQuery astify flags sql).actions := by
  obtain ⟨t₀, rfl⟩ := getQueryTypes_singleton htypes
  rw [List.mem_singleton] at ht
  subst ht
  have hout : executeReadOnlyQuery astify flags sql = ⟨true, []⟩ := by
    unfold executeReadOnlyQuery
    rw [htypes]
    dsimp only
    rcases hblk with ⟨rfl, hf⟩ | ⟨rfl, hf⟩ | ⟨rfl, hf⟩ | ⟨hddl, hf⟩
    · rw [if_pos (by simp [hf])]
    · rw [if_neg (by simp), if_pos (by simp [hf])]
    · rw [if_neg (by simp), if_neg (by simp), if_pos (by simp [hf])]
    · simp only [isDdlType, Bool.or_eq_true, decide_eq_true_eq] at hddl
      rcases hddl with ((rfl | rfl) | rfl) | rfl <;>
        rw [if_neg (by simp), if_neg (by simp), if_neg (by simp),
          if_pos (by simp [hf, isDdlType])]
  rw [hout]
  exact ⟨rfl, by simp⟩

theorem claim9_witness :
    (executeReadOnlyQuery
      (fun _ => .ok (.obj (.cons "type" (.str "INSERT") .nil)))
      ⟨false, false, false, false⟩
      "INSERT INTO test (name) VALUES ('x')").isError = true ∧
    ConnAction.beginTxn ∉ (executeReadOnlyQuery
      (fun _ => .ok (.obj (.cons "type" (.str "INSERT") .nil)))
      ⟨false, false, false, false⟩
      "INSERT INTO test (name) VALUES ('x')").actions :=
  claim9_readonly_blocks_without_txn
    (fun _ => .ok (.obj (.cons "type" (.str "INSERT") .nil)))
    ⟨false, false, false, false⟩ "INSERT INTO test (name) VALUES ('x')"
    ["insert"] "insert" rfl (List.mem_singleton_self _)
    (Or.inl ⟨rfl, rfl⟩)

/-- C10: in single-DB mode with no configured default schema (absent or
empty), a referenced table lacking an explicit schema resolves to no schema
at all, and no schema-qualified denylist entry can match it — only a
schema-less entry can; consequently, with such a default schema, a denylist
consisting solely of schema-qualified entries never blocks a query all of
whose references are unqualified. -/
theorem claim10_unresolved_needs_schemaless_entry (t : ReferencedTable)
    (d : DenylistedTable) (ds : Option String)
    (hq : jsStr? t.schema = none) (hds : ds = none ∨ ds = some "")
    (hd : jsStr? d.schema ≠ none) :
    checkDeny (resolveSchema ds t) t.table d = none ∧
    (∀ (astify : Astify) (env : Env) (sql : String)
      (dl : List DenylistedTable) (refs : List ReferencedTable),
      (∀ d' ∈ dl, jsStr? d'.schema ≠ none) →
      getReferencedTables astify sql = .ok refs →
      (∀ t' ∈ refs, jsStr? t'.schema = none) →
      ∀ dec, isQueryBlockedByDenylist astify env sql dl ds false = .ok dec →
        dec.blocked = false) := by
  constructor
  · rw [resolveSchema_falsy hq hds]
    exact checkDeny_qualified_unresolved hd
  · intro astify env sql dl refs hdl' href hrefs dec hdec
    by_cases hdl : dl = []
    · subst hdl
      have hok : (Except.ok ⟨false, none⟩ : Except String Decision) =
          .ok dec := hdec
      simp only [Except.ok.injEq] at hok
      rw [← hok]
    · rw [isQueryBlockedByDenylist_eq astify env sql dl ds false refs hdl href]
        at hdec
      have hfb : firstBlock ds refs dl = none := by
        unfold firstBlock
        rw [List.findSome?_eq_none_iff]
        intro t' ht'
        rw [List.findSome?_eq_none_iff]
        intro d' hd'
        rw [resolveSchema_falsy (hrefs t' ht') hds]
        exact checkDeny_qualified_unresolved (hdl' d' hd')
      by_cases hre : refs.isEmpty
      · rw [if_pos hre] at hdec
        simp only [Except.ok.injEq] at hdec
        rw [← hdec]
      · rw [if_neg hre, if_neg (by simp), hfb] at hdec
        simp only [Except.ok.injEq] at hdec
        rw [← hdec]

theorem claim10_witness :
    checkDeny (resolveSchema none ⟨none, "users"⟩) "users"
      ⟨some "prod", "users"⟩ = none :=
  (claim10_unresolved_needs_schemaless_entry ⟨none, "users"⟩
    ⟨some "prod", "users"⟩ none rfl (Or.inl rfl) (by simp [jsStr?])).1

end McpMysql

